import Mathlib

/-!
Verification development for the codebench-mcp async-coordination layer.

The embedding translates the Go source:
  * server/vm/eventloop.go   : EventLoop (queue, enqueue, pending, cleanup,
                               cond), Start, EnqueueJob, Stop, AddPending,
                               RemovePending, Cleanup, joinError
  * jsserver/modules/timers/timers.go : delay clamping, timer.stop
  * jsserver module loader (ModuleLoader.EnableRequire)
  * server/modules/crypto/crypto.go (package http half) : httpServer close,
    shutdown, ServeHTTP promise dispatch

Modelling conventions:
  * A Job carries a ghost identifier and the error value it returns when it
    is run (none stands for a nil Go error).  The loop code never inspects a
    job beyond calling it and collecting its error, so this is faithful for
    the loop-level properties.
  * The single mutex / condition variable pair is modelled by letting the
    actions of other goroutines (the environment) take effect at the points
    where the loop blocks in cond.Wait; every state shown below is a
    lock-held snapshot.
  * Go panics are modelled by Option: none is a panic, some is a normal
    result.
  * signals is a ghost counter of cond.Signal() calls.
-/

/-- A queued unit of work: ghost id plus the error the job returns (none is
a nil Go error), mirroring the func() error values stored in EventLoop.queue. -/
structure Job where
  id  : Nat
  err : Option String
deriving DecidableEq

/-- State of one EventLoop (server/vm/eventloop.go), the four fields guarded
by the condition variable lock, plus a ghost count of cond.Signal calls.
cleanup holds ghost identifiers of the registered func() cleanup closures;
in the repository every registered cleanup is a timer stop closure that never
touches the loop fields, so they are modelled as opaque. -/
structure EventLoop where
  queue   : List Job
  cleanup : List Nat
  enqueue : Nat
  pending : Nat
  signals : Nat
deriving DecidableEq

/-- NewEventLoop: empty queue and cleanup list, both counters zero. -/
def newEventLoop : EventLoop :=
  { queue := [], cleanup := [], enqueue := 0, pending := 0, signals := 0 }

/-- Stop installs this single job in place of the queue; it returns the
error Stop was given. -/
def stopJob (err : Option String) : Job :=
  { id := 0, err := err }

/-- EventLoop.Stop: replace the whole queue with the single job returning
err, zero the enqueue counter, signal.  pending and cleanup are untouched. -/
def EventLoop.stop (err : Option String) (e : EventLoop) : EventLoop :=
  { e with queue := [stopJob err], enqueue := 0, signals := e.signals + 1 }

/-- EventLoop.AddPending: increment pending (no signal in the source). -/
def EventLoop.addPending (e : EventLoop) : EventLoop :=
  { e with pending := e.pending + 1 }

/-- EventLoop.RemovePending: decrement pending only when it is strictly
positive, then signal unconditionally. -/
def EventLoop.removePending (e : EventLoop) : EventLoop :=
  { e with pending := if e.pending > 0 then e.pending - 1 else e.pending,
           signals := e.signals + 1 }

/-- EventLoop.Cleanup(job...): append the given cleanup closures. -/
def EventLoop.cleanupAdd (js : List Nat) (e : EventLoop) : EventLoop :=
  { e with cleanup := e.cleanup ++ js }

/-- Error collection of the batch-running section of Start: run the batch in
order; each non-nil error is appended to the joined error (joinError). -/
def collectErrors (errs : List String) : List Job → List String
  | [] => errs
  | j :: rest =>
      collectErrors (match j.err with
        | some msg => errs ++ [msg]
        | none => errs) rest

/-- joinError.Error(): the first message, then "; " before each later one. -/
def joinErrorMessage : List String → String
  | [] => ""
  | e :: rest => rest.foldl (fun acc x => acc ++ "; " ++ x) e

/-- A World couples the loop state with the called flags of the Enqueue
callbacks handed out by EnqueueJob (one Bool per outstanding callback). -/
structure World where
  loop    : EventLoop
  handles : List Bool
deriving DecidableEq

/-- EventLoop.EnqueueJob: increment enqueue and hand out a fresh single-use
callback (its called flag starts false); returns the handle index. -/
def World.enqueueJob (w : World) : World × Nat :=
  ({ loop := { w.loop with enqueue := w.loop.enqueue + 1 },
     handles := w.handles ++ [false] },
   w.handles.length)

/-- Invoking the callback returned by EnqueueJob, with the Go switch order:
a second call on the same callback panics (none); a call once the loop was
stopped (enqueue already 0) is a silent no-op that leaves the flag false;
otherwise append the job, mark the callback called, decrement enqueue,
signal. -/
def World.invoke (w : World) (h : Nat) (j : Job) : Option World :=
  match w.handles.get? h with
  | none => none
  | some true => none
  | some false =>
      if w.loop.enqueue = 0 then
        some w
      else
        some { loop := { w.loop with
                          queue := w.loop.queue ++ [j],
                          enqueue := w.loop.enqueue - 1,
                          signals := w.loop.signals + 1 },
               handles := w.handles.set h true }

/-- One action of a concurrent goroutine against the loop API. -/
inductive EnvAct where
  | newHandle
  | invoke (h : Nat) (j : Job)
  | stopLoop (err : Option String)
  | addPending
  | removePending
  | cleanupAdd (js : List Nat)
deriving DecidableEq

/-- Effect of one environment action (none is a panic). -/
def applyAct : EnvAct → World → Option World
  | .newHandle, w => some (w.enqueueJob).1
  | .invoke h j, w => w.invoke h j
  | .stopLoop e, w => some { w with loop := w.loop.stop e }
  | .addPending, w => some { w with loop := w.loop.addPending }
  | .removePending, w => some { w with loop := w.loop.removePending }
  | .cleanupAdd js, w => some { w with loop := w.loop.cleanupAdd js }

/-- Result of a terminating run of Start: final state, the joined error list
(empty means Start returns nil), the jobs executed in execution order, and
the batch of cleanup closures drained at the single return point. -/
structure RunResult where
  final   : World
  errs    : List String
  trace   : List Job
  cleaned : List Nat
deriving DecidableEq

/-- The error value Start returns: nil (none) when no job failed, else the
joined error holding every collected message. -/
def RunResult.goError (r : RunResult) : Option (List String) :=
  if r.errs = [] then none else some r.errs

/-- The loop body of EventLoop.Start.  Each iteration takes the lock: a
non-empty queue is swapped out and run to completion collecting errors; an
empty queue with enqueue > 0 or pending > 0 waits, during which exactly one
environment action lands (an empty action list is a run that never
terminates, returned as none, like exhausted fuel); otherwise the cleanup
queue is drained once and the loop returns. -/
def startLoop : Nat → List EnvAct → World → List String → List Job → Option RunResult
  | 0, _, _, _, _ => none
  | fuel + 1, acts, w, errs, trace =>
      if w.loop.queue.isEmpty then
        if w.loop.enqueue > 0 ∨ w.loop.pending > 0 then
          match acts with
          | [] => none
          | a :: rest =>
              match applyAct a w with
              | none => none
              | some w1 => startLoop fuel rest w1 errs trace
        else
          some { final := { w with loop := { w.loop with cleanup := [] } },
                 errs := errs, trace := trace, cleaned := w.loop.cleanup }
      else
        startLoop fuel acts
          { w with loop := { w.loop with queue := [] } }
          (collectErrors errs w.loop.queue)
          (trace ++ w.loop.queue)

/-- EventLoop.Start(task): seed the queue with exactly the initial task
(replacing any prior contents, as the source assignment does), then loop. -/
def World.start (fuel : Nat) (acts : List EnvAct) (w : World) (task : Job) :
    Option RunResult :=
  startLoop fuel acts { w with loop := { w.loop with queue := [task] } } [] []

/-!
Environment bookkeeping used for the FIFO ordering result.  Handle flags and
the enqueue counter are modified only by environment actions, never by the
drain or return branches of the loop, so the jobs actually appended by a run
are computed by replaying the actions on (handles, enqueue) alone.
-/

/-- Effect of one action on the (handles, enqueue) pair, together with the
list of jobs the action appends to the queue (empty or a singleton). -/
def envApply : EnvAct → List Bool × Nat → Option ((List Bool × Nat) × List Job)
  | .newHandle, (hs, n) => some ((hs ++ [false], n + 1), [])
  | .invoke h j, (hs, n) =>
      match hs.get? h with
      | none => none
      | some true => none
      | some false =>
          if n = 0 then some ((hs, n), [])
          else some ((hs.set h true, n - 1), [j])
  | .stopLoop _, (hs, _) => some ((hs, 0), [])
  | .addPending, s => some (s, [])
  | .removePending, s => some (s, [])
  | .cleanupAdd _, s => some (s, [])

/-- The jobs appended by a list of environment actions, in append order. -/
def envAppends : List EnvAct → List Bool × Nat → List Job
  | [], _ => []
  | a :: rest, s =>
      match envApply a s with
      | none => []
      | some (s1, js) => js ++ envAppends rest s1

/-- Whether an action is a Stop call. -/
def EnvAct.isStopCall : EnvAct → Bool
  | .stopLoop _ => true
  | _ => false

/-- Every job an action can place into the queue (used to bound the trace). -/
def actJobs : List EnvAct → List Job
  | [] => []
  | .invoke _ j :: rest => j :: actJobs rest
  | .stopLoop e :: rest => stopJob e :: actJobs rest
  | _ :: rest => actJobs rest

/-!
Timer subsystem, jsserver/modules/timers/timers.go.
-/

/-- The delay guard shared by the setTimeout binding (lines 32 to 36): the
ToInteger result i is replaced by 1 when i < 1 or i > 2147483647. -/
def setTimeoutEffectiveDelay (i : Int) : Int :=
  if i < 1 ∨ i > 2147483647 then 1 else i

/-- The identical delay guard in the setInterval binding (lines 78 to 82). -/
def setIntervalEffectiveDelay (i : Int) : Int :=
  if i < 1 ∨ i > 2147483647 then 1 else i

/-- Closing a Go channel: a second close of the same channel panics. -/
def closeChan (alreadyClosed : Bool) : Option Bool :=
  if alreadyClosed then none else some true

/-- One timer: whether its done channel has been closed, plus ghost counts
of channel closes and cleanup-closure executions.  The done channel is only
ever closed, never sent on, so a receive is ready exactly when it is
closed. -/
structure GoTimer where
  doneClosed : Bool
  closes     : Nat
  cleanups   : Nat
deriving DecidableEq

/-- timer.stop: the select observes a closed done channel (receive ready,
ok false) and returns; otherwise the default branch closes done and runs the
cleanup closure.  none would be a double-close panic. -/
def GoTimer.stop (t : GoTimer) : Option GoTimer :=
  if t.doneClosed then
    some t
  else
    (closeChan t.doneClosed).map fun _ =>
      { doneClosed := true, closes := t.closes + 1, cleanups := t.cleanups + 1 }

/-- A freshly created timer (done channel open). -/
def freshTimer : GoTimer :=
  { doneClosed := false, closes := 0, cleanups := 0 }

/-!
Module loader, ModuleLoader.EnableRequire (jsserver vm loader).
-/

/-- A registered module as the loader sees it: its stable name, its
IsEnabled predicate over the configured enabled set, and whether it
implements ModuleCreator (an on-require module). -/
structure JSModule where
  name       : String
  isEnabled  : List String → Bool
  hasCreator : Bool

/-- Alias resolution: the aliases map consulted before lookup. -/
def resolveAlias (aliases : List (String × String)) (n : String) : String :=
  match aliases.lookup n with
  | some t => t
  | none => n

/-- Lookup of a registered module by (resolved) name. -/
def findModule (mods : List JSModule) (n : String) : Option JSModule :=
  mods.find? fun m => m.name == n

/-- The single-quote character, written via its code point. -/
def apos : String := String.mk [Char.ofNat 39]

/-- The TypeError message for an unknown module. -/
def cannotFindMsg (n : String) : String :=
  "Cannot find module " ++ apos ++ n ++ apos

/-- The TypeError message for a registered but disabled module. -/
def notEnabledMsg (n : String) : String :=
  "Module " ++ apos ++ n ++ apos ++ " is not enabled"

/-- What a require(name) call produces. -/
inductive RequireResult where
  | panicMsg (msg : String)
  | moduleObject (name : String)
  | undef
deriving DecidableEq

/-- The body of the require binding: resolve aliases, look the module up,
fail on an unknown name, fail on a disabled module, call CreateModuleObject
on an on-require module, and fall back to undefined for a module without a
creator. -/
def requireCall (aliases : List (String × String)) (mods : List JSModule)
    (enabled : List String) (n : String) : RequireResult :=
  let resolved := resolveAlias aliases n
  match findModule mods resolved with
  | none => .panicMsg (cannotFindMsg resolved)
  | some m =>
      if m.isEnabled enabled then
        if m.hasCreator then .moduleObject m.name else .undef
      else
        .panicMsg (notEnabledMsg resolved)

/-!
HTTP response resolution, server/modules/crypto/crypto.go (package http):
ServeHTTP, handlePromise, handlePendingPromise.
-/

/-- The response data writeResponse needs. -/
structure Resp where
  status : Nat
  body   : String
deriving DecidableEq

/-- A script value as toResponse classifies it: convertible to a response,
or not. -/
inductive JsVal where
  | respLike (r : Resp)
  | notResp
deriving DecidableEq

/-- toResponse: the conversion of a handler value to an http.Response. -/
def toResponse : JsVal → Option Resp
  | .respLike r => some r
  | .notResp => none

/-- State of the promise a handler returned, at inspection time; a pending
promise records whether its then member is callable. -/
inductive PromiseState where
  | fulfilled (v : JsVal)
  | rejected (msg : String)
  | pending (hasThen : Bool)
deriving DecidableEq

/-- What the handler invocation produced inside the enqueued job. -/
inductive HandlerOutcome where
  | threw (msg : String)
  | value (v : JsVal)
  | promise (ps : PromiseState)
deriving DecidableEq

/-- The observable action taken on the blocked request goroutine. -/
inductive HttpAction where
  | wrote (r : Resp)
  | errored (msg : String)
  | attachedThen
deriving DecidableEq

/-- The errNotResponse message. -/
def errNotResponseMsg : String :=
  "return value from handler must be a response or a promise resolving to a response"

/-- handlePromise: an already rejected promise takes the error path with the
rejection value, an already fulfilled promise has its result converted and
written, and a pending promise goes to handlePendingPromise, which attaches
resolve and reject through the then method (errNotResponse if then is not
callable). -/
def handlePromiseModel : PromiseState → HttpAction
  | .rejected m => .errored m
  | .fulfilled v =>
      match toResponse v with
      | some r => .wrote r
      | none => .errored errNotResponseMsg
  | .pending hasThen =>
      if hasThen then .attachedThen else .errored errNotResponseMsg

/-- The dispatch in the job ServeHTTP enqueues: handler error to the error
path, promise to handlePromise, otherwise convert and write the value. -/
def serveDispatch : HandlerOutcome → HttpAction
  | .threw m => .errored m
  | .promise ps => handlePromiseModel ps
  | .value v =>
      match toResponse v with
      | some r => .wrote r
      | none => .errored errNotResponseMsg

/-- A later settlement of the pending promise through the attached
callables. -/
inductive Settlement where
  | resolveWith (v : JsVal)
  | rejectWith (m : String)
deriving DecidableEq

/-- What the attached resolve and reject callables do when the script
settles the promise: resolve converts and writes (errNotResponse on a
non-response), reject takes the error path with the rejection value. -/
def settleAction : Settlement → HttpAction
  | .resolveWith v =>
      match toResponse v with
      | some r => .wrote r
      | none => .errored errNotResponseMsg
  | .rejectWith m => .errored m

/-!
httpServer close and shutdown (crypto.go lines 461 to 480).  serv.ref is the
single-use Enqueue callback obtained at server creation; close and shutdown
store the closed flag, close or shut the net server down (ghost counters),
and, when ref is non-nil, call ref with a job that will clear ref when the
event loop later runs it.  ref itself stays non-nil until that queued job
executes.
-/

/-- The job close and shutdown enqueue; running it sets ref to nil and
returns a nil error. -/
def releaseJob : Job := { id := 99, err := none }

/-- An httpServer together with the World holding its enqueue token. -/
structure ServerState where
  w            : World
  closed       : Bool
  refHandle    : Option Nat
  netCloses    : Nat
  netShutdowns : Nat
deriving DecidableEq

/-- httpServer.close: set closed, close the net server, and when ref is
non-nil invoke it with the release job.  The invoke is the single-use
Enqueue callback, so none is its double-call panic. -/
def serverClose (s : ServerState) : Option ServerState :=
  let s1 : ServerState := { s with closed := true, netCloses := s.netCloses + 1 }
  match s1.refHandle with
  | none => some s1
  | some h => (s1.w.invoke h releaseJob).map fun w1 => { s1 with w := w1 }

/-- httpServer.shutdown: identical structure, with the graceful net server
shutdown in place of the abrupt close. -/
def serverShutdown (s : ServerState) : Option ServerState :=
  let s1 : ServerState := { s with closed := true, netShutdowns := s.netShutdowns + 1 }
  match s1.refHandle with
  | none => some s1
  | some h => (s1.w.invoke h releaseJob).map fun w1 => { s1 with w := w1 }

/-- The event loop running the queued release job: ref becomes nil. -/
def runReleaseJob (s : ServerState) : ServerState :=
  { s with refHandle := none }

/-- A server immediately after creation: its ref token is handle 0 and the
loop carries the matching enqueue count of 1. -/
def c6Server0 : ServerState :=
  { w := { loop := { newEventLoop with enqueue := 1 }, handles := [false] },
    closed := false, refHandle := some 0, netCloses := 0, netShutdowns := 0 }

/-- The state after the first close: the release job is queued, the handle
is consumed, and ref is still set because the loop has not run the job. -/
def c6Server1 : ServerState :=
  { w := { loop := { newEventLoop with queue := [releaseJob], signals := 1 },
           handles := [true] },
    closed := true, refHandle := some 0, netCloses := 1, netShutdowns := 0 }


/-- Jobs an action can append (at most one). -/
def jobsOfAct : EnvAct → List Job
  | .invoke _ j => [j]
  | .stopLoop e => [stopJob e]
  | _ => []

/-- A sequence of AddPending and RemovePending calls. -/
inductive PendingOp where
  | add
  | remove
deriving DecidableEq

/-- Applying a sequence of AddPending and RemovePending calls in order. -/
def runPendingOps : List PendingOp → EventLoop → EventLoop
  | [], e => e
  | .add :: rest, e => runPendingOps rest e.addPending
  | .remove :: rest, e => runPendingOps rest e.removePending

/-- Number of AddPending calls in a sequence. -/
def countAdds : List PendingOp → Nat
  | [] => 0
  | .add :: rest => countAdds rest + 1
  | .remove :: rest => countAdds rest

/-- A concrete on-require module with the IsEnabled predicate every module
in the repository uses: enabled exactly when its own name is in the set. -/
def cryptoMod : JSModule :=
  { name := "crypto", isEnabled := fun s => s.contains "crypto", hasCreator := true }

/-- Concrete values used by the witness theorems. -/
def c1run : RunResult :=
  { final := { loop := newEventLoop, handles := [] }, errs := [],
    trace := [{ id := 1, err := none }], cleaned := [] }

def c2wb : World :=
  { loop := { newEventLoop with
               queue := [{ id := 2, err := some "boom" }, { id := 3, err := none }] },
    handles := [] }

def c2r : RunResult :=
  { final := { loop := newEventLoop, handles := [] },
    errs := ["boom"], trace := [{ id := 2, err := some "boom" }], cleaned := [] }

def c3j : Job := { id := 7, err := none }

def c3j2 : Job := { id := 8, err := none }

def c3w1 : World := { loop := { newEventLoop with enqueue := 1 }, handles := [false] }

def c3w1x : World :=
  { loop := { queue := [c3j], cleanup := [], enqueue := 0, pending := 0, signals := 1 },
    handles := [true] }

def c3w2 : World := { loop := newEventLoop, handles := [true] }

def c3w3 : World := { loop := newEventLoop, handles := [false] }

def c4ws : World :=
  { loop := { newEventLoop with queue := [stopJob (some "ctx")] }, handles := [] }

def c4r : RunResult :=
  { final := { loop := newEventLoop, handles := [] },
    errs := ["ctx"], trace := [stopJob (some "ctx")], cleaned := [] }

def c5task : Job := { id := 1, err := none }

def c5w0 : World := { loop := { newEventLoop with pending := 1 }, handles := [] }

def c5acts : List EnvAct :=
  [.newHandle, .newHandle, .invoke 1 { id := 11, err := some "boom" },
   .invoke 0 { id := 10, err := none }, .removePending]

def c5r : RunResult :=
  { final := { loop := { queue := [], cleanup := [], enqueue := 0, pending := 0,
                         signals := 3 }, handles := [true, true] },
    errs := ["boom"],
    trace := [{ id := 1, err := none }, { id := 11, err := some "boom" },
              { id := 10, err := none }],
    cleaned := [] }

def c6Timer1 : GoTimer := { doneClosed := true, closes := 1, cleanups := 1 }

/-!
Helper lemmas about the interpreter.
-/

/-- The batch runner collects exactly the non-nil errors, in job order. -/
theorem collectErrors_eq (batch : List Job) :
    ∀ errs : List String,
      collectErrors errs batch = errs ++ batch.filterMap Job.err := by
  induction batch with
  | nil => intro errs; simp [collectErrors]
  | cons j rest ih =>
      intro errs
      cases h : j.err with
      | none => simp [collectErrors, h, ih]
      | some m => simp [collectErrors, h, ih]

theorem actJobs_cons (a : EnvAct) (rest : List EnvAct) :
    actJobs (a :: rest) = jobsOfAct a ++ actJobs rest := by
  cases a <;> simp [actJobs, jobsOfAct]

/-- After an environment action, every queued job was already queued or was
supplied by the action. -/
theorem applyAct_queue_subset (a : EnvAct) (w w1 : World)
    (h : applyAct a w = some w1) :
    ∀ j ∈ w1.loop.queue, j ∈ w.loop.queue ∨ j ∈ jobsOfAct a := by
  intro j hj
  cases a with
  | newHandle =>
      simp [applyAct, World.enqueueJob] at h
      subst h; exact Or.inl hj
  | invoke hi ji =>
      simp only [applyAct, World.invoke] at h
      cases hg : w.handles.get? hi with
      | none => rw [hg] at h; cases h
      | some b =>
          cases b with
          | true => rw [hg] at h; cases h
          | false =>
              rw [hg] at h
              by_cases he : w.loop.enqueue = 0
              · rw [if_pos he] at h
                cases h; exact Or.inl hj
              · rw [if_neg he] at h
                cases h
                simp [jobsOfAct]
                rcases List.mem_append.mp hj with h1 | h1
                · exact Or.inl h1
                · simp at h1; exact Or.inr h1
  | stopLoop e =>
      simp [applyAct, EventLoop.stop] at h
      subst h
      simp [jobsOfAct]
      simp at hj
      exact Or.inr hj
  | addPending =>
      simp [applyAct, EventLoop.addPending] at h
      subst h; exact Or.inl hj
  | removePending =>
      simp [applyAct, EventLoop.removePending] at h
      subst h; exact Or.inl hj
  | cleanupAdd js =>
      simp [applyAct, EventLoop.cleanupAdd] at h
      subst h; exact Or.inl hj

/-- Quiescence at the unique return point: whenever the loop terminates
normally, the branch taken requires an empty queue and both counters zero,
and it empties the cleanup list after handing it out once. -/
theorem startLoop_quiescent_at_return (fuel : Nat) :
    ∀ (acts : List EnvAct) (w : World) (errs : List String) (trace : List Job)
      (r : RunResult), startLoop fuel acts w errs trace = some r →
      r.final.loop.queue = [] ∧ r.final.loop.enqueue = 0 ∧
        r.final.loop.pending = 0 ∧ r.final.loop.cleanup = [] := by
  induction fuel with
  | zero =>
      intro acts w errs trace r h
      simp [startLoop] at h
  | succ n ih =>
      intro acts w errs trace r h
      rw [startLoop.eq_def] at h
      dsimp only at h
      by_cases hq : w.loop.queue.isEmpty
      · rw [if_pos hq] at h
        by_cases hc : w.loop.enqueue > 0 ∨ w.loop.pending > 0
        · rw [if_pos hc] at h
          cases acts with
          | nil => cases h
          | cons a rest =>
              dsimp only at h
              cases ha : applyAct a w with
              | none => rw [ha] at h; cases h
              | some w1 =>
                  rw [ha] at h
                  exact ih rest w1 errs trace r h
        · rw [if_neg hc] at h
          cases h
          push_neg at hc
          refine ⟨List.isEmpty_iff.mp hq, ?_, ?_, rfl⟩ <;> dsimp only <;> omega
      · rw [if_neg hq] at h
        exact ih acts _ _ _ r h

/-- Every executed job was already executed, initially queued, or supplied
by one of the environment actions. -/
theorem startLoop_trace_subset (fuel : Nat) :
    ∀ (acts : List EnvAct) (w : World) (errs : List String) (trace : List Job)
      (r : RunResult), startLoop fuel acts w errs trace = some r →
      ∀ j ∈ r.trace, j ∈ trace ∨ j ∈ w.loop.queue ∨ j ∈ actJobs acts := by
  induction fuel with
  | zero =>
      intro acts w errs trace r h
      simp [startLoop] at h
  | succ n ih =>
      intro acts w errs trace r h j hj
      rw [startLoop.eq_def] at h
      dsimp only at h
      by_cases hq : w.loop.queue.isEmpty
      · rw [if_pos hq] at h
        by_cases hc : w.loop.enqueue > 0 ∨ w.loop.pending > 0
        · rw [if_pos hc] at h
          cases acts with
          | nil => cases h
          | cons a rest =>
              dsimp only at h
              cases ha : applyAct a w with
              | none => rw [ha] at h; cases h
              | some w1 =>
                  rw [ha] at h
                  rcases ih rest w1 errs trace r h j hj with h1 | h1 | h1
                  · exact Or.inl h1
                  · rcases applyAct_queue_subset a w w1 ha j h1 with h2 | h2
                    · exact Or.inr (Or.inl h2)
                    · refine Or.inr (Or.inr ?_)
                      rw [actJobs_cons]
                      exact List.mem_append.mpr (Or.inl h2)
                  · refine Or.inr (Or.inr ?_)
                    rw [actJobs_cons]
                    exact List.mem_append.mpr (Or.inr h1)
        · rw [if_neg hc] at h
          cases h
          exact Or.inl hj
      · rw [if_neg hq] at h
        rcases ih acts _ _ _ r h j hj with h1 | h1 | h1
        · rcases List.mem_append.mp h1 with h2 | h2
          · exact Or.inl h2
          · exact Or.inr (Or.inl h2)
        · simp at h1
        · exact Or.inr (Or.inr h1)

/-- The run only appends to the trace, and the collected errors are exactly
the non-nil errors of the appended jobs, in execution order. -/
theorem startLoop_trace_errs (fuel : Nat) :
    ∀ (acts : List EnvAct) (w : World) (errs : List String) (trace : List Job)
      (r : RunResult), startLoop fuel acts w errs trace = some r →
      ∃ d, r.trace = trace ++ d ∧ r.errs = errs ++ d.filterMap Job.err := by
  induction fuel with
  | zero =>
      intro acts w errs trace r h
      simp [startLoop] at h
  | succ n ih =>
      intro acts w errs trace r h
      rw [startLoop.eq_def] at h
      dsimp only at h
      by_cases hq : w.loop.queue.isEmpty
      · rw [if_pos hq] at h
        by_cases hc : w.loop.enqueue > 0 ∨ w.loop.pending > 0
        · rw [if_pos hc] at h
          cases acts with
          | nil => cases h
          | cons a rest =>
              dsimp only at h
              cases ha : applyAct a w with
              | none => rw [ha] at h; cases h
              | some w1 =>
                  rw [ha] at h
                  exact ih rest w1 errs trace r h
        · rw [if_neg hc] at h
          cases h
          exact ⟨[], by simp⟩
      · rw [if_neg hq] at h
        rcases ih acts _ _ _ r h with ⟨d, hd1, hd2⟩
        refine ⟨w.loop.queue ++ d, ?_, ?_⟩
        · rw [hd1, List.append_assoc]
        · rw [hd2, collectErrors_eq, List.filterMap_append, List.append_assoc]

/-- A non-Stop action touches the handle flags and the enqueue counter
exactly as the replay function does, and extends the queue by exactly the
jobs the replay reports. -/
theorem applyAct_envApply (a : EnvAct) (w w1 : World)
    (hns : a.isStopCall = false) (h : applyAct a w = some w1) :
    ∃ js, envApply a (w.handles, w.loop.enqueue) =
        some ((w1.handles, w1.loop.enqueue), js)
      ∧ w1.loop.queue = w.loop.queue ++ js := by
  cases a with
  | newHandle =>
      simp [applyAct, World.enqueueJob] at h
      subst h
      exact ⟨[], by simp [envApply]⟩
  | invoke hi ji =>
      simp only [applyAct, World.invoke] at h
      cases hg : w.handles.get? hi with
      | none => rw [hg] at h; cases h
      | some b =>
          cases b with
          | true => rw [hg] at h; cases h
          | false =>
              rw [hg] at h
              by_cases he : w.loop.enqueue = 0
              · rw [if_pos he] at h
                cases h
                exact ⟨[], by simp [envApply, ← List.get?_eq_getElem?, hg, he]⟩
              · rw [if_neg he] at h
                cases h
                exact ⟨[ji], by simp [envApply, ← List.get?_eq_getElem?, hg, he]⟩
  | stopLoop e => simp [EnvAct.isStopCall] at hns
  | addPending =>
      simp [applyAct, EventLoop.addPending] at h
      subst h
      exact ⟨[], by simp [envApply]⟩
  | removePending =>
      simp [applyAct, EventLoop.removePending] at h
      subst h
      exact ⟨[], by simp [envApply]⟩
  | cleanupAdd js =>
      simp [applyAct, EventLoop.cleanupAdd] at h
      subst h
      exact ⟨[], by simp [envApply]⟩

/-- FIFO: when no Stop lands, a terminating run executes first the initially
queued jobs in order and then exactly the jobs appended by the consumed
prefix of environment actions, in the order their callbacks were invoked. -/
theorem startLoop_trace_fifo (fuel : Nat) :
    ∀ (acts : List EnvAct) (w : World) (errs : List String) (trace : List Job)
      (r : RunResult), (∀ a ∈ acts, a.isStopCall = false) →
      startLoop fuel acts w errs trace = some r →
      ∃ acts1 acts2, acts = acts1 ++ acts2 ∧
        r.trace = trace ++ w.loop.queue ++
          envAppends acts1 (w.handles, w.loop.enqueue) := by
  induction fuel with
  | zero =>
      intro acts w errs trace r _ h
      simp [startLoop] at h
  | succ n ih =>
      intro acts w errs trace r hns h
      rw [startLoop.eq_def] at h
      dsimp only at h
      by_cases hq : w.loop.queue.isEmpty
      · rw [if_pos hq] at h
        have hqe : w.loop.queue = [] := List.isEmpty_iff.mp hq
        by_cases hc : w.loop.enqueue > 0 ∨ w.loop.pending > 0
        · rw [if_pos hc] at h
          cases acts with
          | nil => cases h
          | cons a rest =>
              dsimp only at h
              cases ha : applyAct a w with
              | none => rw [ha] at h; cases h
              | some w1 =>
                  rw [ha] at h
                  have hans : a.isStopCall = false := hns a (by simp)
                  obtain ⟨js, henv, hqueue⟩ := applyAct_envApply a w w1 hans ha
                  obtain ⟨acts1, acts2, hsplit, htr⟩ :=
                    ih rest w1 errs trace r (fun x hx => hns x (by simp [hx])) h
                  refine ⟨a :: acts1, acts2, by simp [hsplit], ?_⟩
                  rw [htr, hqueue, hqe]
                  simp [envAppends, henv]
        · rw [if_neg hc] at h
          cases h
          exact ⟨[], acts, rfl, by simp [envAppends, hqe]⟩
      · rw [if_neg hq] at h
        obtain ⟨acts1, acts2, hsplit, htr⟩ :=
          ih acts _ _ _ r hns h
        refine ⟨acts1, acts2, hsplit, ?_⟩
        rw [htr]
        simp

/-!
Claim theorems.
-/

/-- C1: EventLoop.Start returns only at quiescence: at the moment of return
the job queue is empty, the enqueue counter is 0 and the pending counter is
0 — unconditionally, hence in particular whenever Stop was never called —
and the cleanup queue is drained exactly once before Start returns: the
single return branch hands the accumulated cleanup jobs out in one batch
(field cleaned of the result) and leaves the loop with an empty cleanup
list. -/
theorem start_returns_only_at_quiescence
    (fuel : Nat) (acts : List EnvAct) (w : World) (task : Job) (r : RunResult)
    (h : World.start fuel acts w task = some r) :
    r.final.loop.queue = [] ∧ r.final.loop.enqueue = 0 ∧
      r.final.loop.pending = 0 ∧ r.final.loop.cleanup = [] :=
  startLoop_quiescent_at_return fuel acts _ [] [] r h

/-- C1 witness: a concrete terminating run. -/
theorem start_returns_only_at_quiescence_witness :
    c1run.final.loop.queue = [] ∧ c1run.final.loop.enqueue = 0 ∧
      c1run.final.loop.pending = 0 ∧ c1run.final.loop.cleanup = [] :=
  start_returns_only_at_quiescence 3 [] { loop := newEventLoop, handles := [] }
    { id := 1, err := none } c1run (by decide)

/-- C2: a drained batch is executed whole and in order even when earlier
jobs fail (the one-iteration equation appends the entire batch to the
execution trace and collects every non-nil error of the batch), and over a
full run the joined error returned by Start is exactly the list of non-nil
job errors in execution order — nil exactly when no executed job failed. -/
theorem start_collects_all_job_errors
    (fuel : Nat) (acts : List EnvAct) (w wb : World) (task : Job)
    (r : RunResult) (errs0 : List String) (tr batch : List Job) :
    collectErrors errs0 batch = errs0 ++ batch.filterMap Job.err
    ∧ (¬ wb.loop.queue.isEmpty →
        startLoop (fuel + 1) acts wb errs0 tr =
          startLoop fuel acts { wb with loop := { wb.loop with queue := [] } }
            (collectErrors errs0 wb.loop.queue) (tr ++ wb.loop.queue))
    ∧ (World.start fuel acts w task = some r →
        r.errs = r.trace.filterMap Job.err ∧
          (r.goError = none ↔ ∀ j ∈ r.trace, j.err = none)) := by
  refine ⟨collectErrors_eq batch errs0, ?_, ?_⟩
  · intro hb
    rw [startLoop.eq_def]
    dsimp only
    rw [if_neg hb]
  · intro h
    obtain ⟨d, hd1, hd2⟩ := startLoop_trace_errs fuel acts _ [] [] r h
    simp only [List.nil_append] at hd1 hd2
    have herrs : r.errs = r.trace.filterMap Job.err := by rw [hd1, hd2]
    refine ⟨herrs, ?_⟩
    rw [RunResult.goError]
    constructor
    · intro hnone
      by_cases hz : r.errs = []
      · rw [herrs] at hz
        exact fun j hj => List.filterMap_eq_nil_iff.mp hz j hj
      · rw [if_neg hz] at hnone; cases hnone
    · intro hall
      have hz : r.errs = [] := by
        rw [herrs]
        exact List.filterMap_eq_nil_iff.mpr hall
      rw [if_pos hz]

/-- C2 witness: the one-iteration equation on a concrete two-job batch with
a failing first job, and a concrete full run with one failing job. -/
theorem start_collects_all_job_errors_witness :
    (startLoop 1 [] c2wb ["a"] [] =
      startLoop 0 [] { c2wb with loop := { c2wb.loop with queue := [] } }
        (collectErrors ["a"] c2wb.loop.queue) ([] ++ c2wb.loop.queue))
    ∧ (c2r.errs = c2r.trace.filterMap Job.err ∧
        (c2r.goError = none ↔ ∀ j ∈ c2r.trace, j.err = none)) :=
  ⟨(start_collects_all_job_errors 0 [] c2wb c2wb { id := 0, err := none }
      c2r ["a"] [] []).2.1 (by decide),
   (start_collects_all_job_errors 3 [] { loop := newEventLoop, handles := [] }
      c2wb { id := 2, err := some "boom" } c2r [] [] []).2.2 (by decide)⟩

/-- C3: EnqueueJob increments the enqueue counter and hands out a fresh
single-use callback; an effective invocation appends the job at the tail of
the queue, decrements enqueue and signals; invoking the callback again after
an effective invocation panics; invoking it when Stop has already reset
enqueue to 0 is a silent no-op that adds no job and changes nothing. -/
theorem enqueue_callback_single_use
    (w w1 w2 w3 : World) (h : Nat) (j j2 : Job) :
    ((w.enqueueJob).1.loop.enqueue = w.loop.enqueue + 1
      ∧ (w.enqueueJob).1.loop.queue = w.loop.queue
      ∧ (w.enqueueJob).1.handles = w.handles ++ [false]
      ∧ (w.enqueueJob).2 = w.handles.length)
    ∧ (w1.handles.get? h = some false → 0 < w1.loop.enqueue →
        w1.invoke h j = some
          { loop := { w1.loop with
                      queue := w1.loop.queue ++ [j],
                      enqueue := w1.loop.enqueue - 1,
                      signals := w1.loop.signals + 1 },
            handles := w1.handles.set h true })
    ∧ (w1.handles.get? h = some false → 0 < w1.loop.enqueue →
        ∀ w4, w1.invoke h j = some w4 → w4.invoke h j2 = none)
    ∧ (w2.handles.get? h = some true → w2.invoke h j = none)
    ∧ (w3.handles.get? h = some false → w3.loop.enqueue = 0 →
        w3.invoke h j = some w3) := by
  refine ⟨⟨rfl, rfl, rfl, rfl⟩, ?_, ?_, ?_, ?_⟩
  · intro hg he
    have hne : w1.loop.enqueue ≠ 0 := Nat.pos_iff_ne_zero.mp he
    simp [World.invoke, ← List.get?_eq_getElem?, hg, hne]
  · intro hg he w4 hw4
    have hne : w1.loop.enqueue ≠ 0 := Nat.pos_iff_ne_zero.mp he
    simp only [World.invoke] at hw4
    rw [hg, if_neg hne] at hw4
    cases hw4
    have hg2 : w1.handles[h]? = some false := by
      rw [← List.get?_eq_getElem?]; exact hg
    have hset : (w1.handles.set h true).get? h = some true := by
      rw [List.get?_eq_getElem?, List.getElem?_set_self', hg2]
      rfl
    simp [World.invoke, ← List.get?_eq_getElem?, hset]
  · intro hg
    simp [World.invoke, ← List.get?_eq_getElem?, hg]
  · intro hg he
    simp [World.invoke, ← List.get?_eq_getElem?, hg, he]

/-- C3 witness: a fresh callback on a one-handle world with enqueue 1 is
effective once, panics on the second call, panics on an already-called
handle, and is a no-op after Stop has zeroed enqueue. -/
theorem enqueue_callback_single_use_witness :
    c3w1.invoke 0 c3j = some c3w1x
    ∧ c3w1x.invoke 0 c3j2 = none
    ∧ c3w2.invoke 0 c3j = none
    ∧ c3w3.invoke 0 c3j = some c3w3 :=
  ⟨(enqueue_callback_single_use c3w1 c3w1 c3w2 c3w3 0 c3j c3j2).2.1
      (by decide) (by decide),
   (enqueue_callback_single_use c3w1 c3w1 c3w2 c3w3 0 c3j c3j2).2.2.1
      (by decide) (by decide) c3w1x
      ((enqueue_callback_single_use c3w1 c3w1 c3w2 c3w3 0 c3j c3j2).2.1
        (by decide) (by decide)),
   (enqueue_callback_single_use c3w1 c3w1 c3w2 c3w3 0 c3j c3j2).2.2.2.1
      (by decide),
   (enqueue_callback_single_use c3w1 c3w1 c3w2 c3w3 0 c3j c3j2).2.2.2.2
      (by decide) (by decide)⟩

/-- C4: Stop(err) replaces the whole queue with one job returning err and
zeroes the enqueue counter while leaving pending and cleanup untouched; a
loop whose queue is that single job drains exactly that job (and collects
its error) in the next iteration; and in any terminating continuation every
executed job is a previously executed one, the installed error job, or a job
supplied by a later action — never a job that was queued before Stop. -/
theorem stop_replaces_queue_with_error_job
    (e : EventLoop) (err : Option String) (fuel : Nat) (acts : List EnvAct)
    (ws : World) (errs0 : List String) (tr : List Job) (r : RunResult) :
    ((e.stop err).queue = [stopJob err] ∧ (e.stop err).enqueue = 0
      ∧ (e.stop err).pending = e.pending ∧ (e.stop err).cleanup = e.cleanup
      ∧ (e.stop err).signals = e.signals + 1)
    ∧ (ws.loop.queue = [stopJob err] →
        startLoop (fuel + 1) acts ws errs0 tr =
          startLoop fuel acts { ws with loop := { ws.loop with queue := [] } }
            (collectErrors errs0 [stopJob err]) (tr ++ [stopJob err]))
    ∧ (startLoop fuel acts ws errs0 tr = some r →
        ws.loop.queue = [stopJob err] →
        ∀ j ∈ r.trace, j ∈ tr ∨ j = stopJob err ∨ j ∈ actJobs acts) := by
  refine ⟨⟨rfl, rfl, rfl, rfl, rfl⟩, ?_, ?_⟩
  · intro hq
    rw [startLoop.eq_def]
    dsimp only
    rw [hq]
    rfl
  · intro h hq j hj
    rcases startLoop_trace_subset fuel acts ws errs0 tr r h j hj with h1 | h1 | h1
    · exact Or.inl h1
    · rw [hq] at h1
      simp at h1
      exact Or.inr (Or.inl h1)
    · exact Or.inr (Or.inr h1)

/-- C4 witness: a concrete stopped loop runs only the installed error job. -/
theorem stop_replaces_queue_with_error_job_witness :
    ((newEventLoop.stop (some "ctx")).queue = [stopJob (some "ctx")]
      ∧ (newEventLoop.stop (some "ctx")).enqueue = 0)
    ∧ (startLoop 3 [] c4ws [] [] =
        startLoop 2 [] { c4ws with loop := { c4ws.loop with queue := [] } }
          (collectErrors [] [stopJob (some "ctx")]) ([] ++ [stopJob (some "ctx")]))
    ∧ (stopJob (some "ctx") ∈ ([] : List Job) ∨ stopJob (some "ctx") = stopJob (some "ctx")
        ∨ stopJob (some "ctx") ∈ actJobs []) :=
  ⟨⟨(stop_replaces_queue_with_error_job newEventLoop (some "ctx") 2 [] c4ws [] [] c4r).1.1,
    (stop_replaces_queue_with_error_job newEventLoop (some "ctx") 2 [] c4ws [] [] c4r).1.2.1⟩,
   (stop_replaces_queue_with_error_job newEventLoop (some "ctx") 2 [] c4ws [] [] c4r).2.1
     (by decide),
   (stop_replaces_queue_with_error_job newEventLoop (some "ctx") 2 [] c4ws [] [] c4r).2.2
     (by decide) (by decide) (stopJob (some "ctx")) (by decide)⟩

/-- C5: FIFO relative to callback invocation: when no Stop lands, a
terminating Start run executes the initial task first and then exactly the
jobs appended by the consumed prefix of environment actions, in the order
their Enqueue callbacks were invoked — independent of the order in which
the callback handles were obtained. -/
theorem jobs_run_in_invocation_order
    (fuel : Nat) (acts : List EnvAct) (w : World) (task : Job) (r : RunResult)
    (hns : ∀ a ∈ acts, a.isStopCall = false)
    (h : World.start fuel acts w task = some r) :
    ∃ acts1 acts2, acts = acts1 ++ acts2 ∧
      r.trace = task :: envAppends acts1 (w.handles, w.loop.enqueue) := by
  obtain ⟨a1, a2, hs, htr⟩ := startLoop_trace_fifo fuel acts _ [] [] r hns h
  exact ⟨a1, a2, hs, by simpa using htr⟩

/-- C5 witness: handle 0 is obtained before handle 1, but handle 1 is
invoked first, so its job runs first; the run terminates and its trace is
the initial task followed by the two appended jobs in invocation order. -/
theorem jobs_run_in_invocation_order_witness :
    ∃ acts1 acts2, c5acts = acts1 ++ acts2 ∧
      c5r.trace = c5task :: envAppends acts1 (c5w0.handles, c5w0.loop.enqueue) :=
  jobs_run_in_invocation_order 20 c5acts c5w0 c5task c5r (by decide) (by decide)

/-- C6: evaluation at the failing input.  Timer idempotence holds: stopping
a fresh timer closes its done channel and runs its cleanup exactly once, and
stopping it again is a panic-free no-op.  The HTTP half of the claim fails
on the code: with the server holding its live enqueue token, the first
close() consumes the single-use Enqueue callback, and a second close() or a
shutdown() issued before the event loop has run the queued release job
re-invokes that callback, which panics (none); only once the loop has run
the release job (ref cleared) does a second close become a no-op. -/
theorem double_close_panics_timer_stop_idempotent :
    GoTimer.stop freshTimer = some c6Timer1
    ∧ GoTimer.stop c6Timer1 = some c6Timer1
    ∧ c6Timer1.closes = 1 ∧ c6Timer1.cleanups = 1
    ∧ serverClose c6Server0 = some c6Server1
    ∧ serverClose c6Server1 = none
    ∧ serverShutdown c6Server1 = none
    ∧ serverClose (runReleaseJob c6Server1) =
        some { runReleaseJob c6Server1 with netCloses := 2 } := by
  decide

/-- C7: all three response-resolution shapes.  A synchronously returned
response value is written directly; a promise already fulfilled with a
response value at inspection time has that value written, while an already
rejected promise takes the error path with the rejection value; a pending
promise with a callable then member gets resolve and reject attached, and
the later settlement writes the resolved response or takes the error path
for a rejection. -/
theorem response_resolution_three_shapes (v : JsVal) (r : Resp) (m : String) :
    (toResponse v = some r → serveDispatch (.value v) = .wrote r)
    ∧ (toResponse v = some r →
        serveDispatch (.promise (.fulfilled v)) = .wrote r)
    ∧ serveDispatch (.promise (.rejected m)) = .errored m
    ∧ serveDispatch (.promise (.pending true)) = .attachedThen
    ∧ (toResponse v = some r → settleAction (.resolveWith v) = .wrote r)
    ∧ settleAction (.rejectWith m) = .errored m := by
  refine ⟨?_, ?_, rfl, rfl, ?_, rfl⟩ <;> intro hv <;>
    simp [serveDispatch, handlePromiseModel, settleAction, hv]

/-- C7 witness: a concrete 201 response through each shape. -/
theorem response_resolution_three_shapes_witness :
    serveDispatch (.value (.respLike { status := 201, body := "created" })) =
      .wrote { status := 201, body := "created" }
    ∧ serveDispatch (.promise (.fulfilled (.respLike { status := 201, body := "created" }))) =
      .wrote { status := 201, body := "created" }
    ∧ settleAction (.resolveWith (.respLike { status := 201, body := "created" })) =
      .wrote { status := 201, body := "created" } :=
  ⟨(response_resolution_three_shapes (.respLike { status := 201, body := "created" })
      { status := 201, body := "created" } "boom").1 (by decide),
   (response_resolution_three_shapes (.respLike { status := 201, body := "created" })
      { status := 201, body := "created" } "boom").2.1 (by decide),
   (response_resolution_three_shapes (.respLike { status := 201, body := "created" })
      { status := 201, body := "created" } "boom").2.2.2.2.1 (by decide)⟩

/-- C8: both setTimeout and setInterval use the same guard; the effective
delay is d for 1 <= d <= 2147483647 and exactly 1 otherwise, hence it is
never zero, negative, or beyond the int32 range. -/
theorem timer_delay_clamped_to_range (d : Int) :
    setIntervalEffectiveDelay d = setTimeoutEffectiveDelay d
    ∧ (1 ≤ d → d ≤ 2147483647 → setTimeoutEffectiveDelay d = d)
    ∧ (d < 1 ∨ 2147483647 < d → setTimeoutEffectiveDelay d = 1)
    ∧ 1 ≤ setTimeoutEffectiveDelay d
    ∧ setTimeoutEffectiveDelay d ≤ 2147483647
    ∧ (1 ≤ d → d ≤ 2147483647 → setIntervalEffectiveDelay d = d)
    ∧ (d < 1 ∨ 2147483647 < d → setIntervalEffectiveDelay d = 1) := by
  unfold setTimeoutEffectiveDelay setIntervalEffectiveDelay
  refine ⟨rfl, ?_, ?_, ?_, ?_, ?_, ?_⟩ <;> split <;> omega

/-- C8 witness: an in-range delay is kept; zero, negative and overflowing
delays clamp to 1. -/
theorem timer_delay_clamped_to_range_witness :
    setTimeoutEffectiveDelay 50 = 50
    ∧ setTimeoutEffectiveDelay 0 = 1
    ∧ setIntervalEffectiveDelay (-7) = 1
    ∧ setIntervalEffectiveDelay 2147483648 = 1 :=
  ⟨(timer_delay_clamped_to_range 50).2.1 (by decide) (by decide),
   (timer_delay_clamped_to_range 0).2.2.1 (by decide),
   (timer_delay_clamped_to_range (-7)).2.2.2.2.2.2 (by decide),
   (timer_delay_clamped_to_range 2147483648).2.2.2.2.2.2 (by decide)⟩

/-- C9: require, after alias resolution: an unregistered name fails with the
TypeError naming the resolved module; a registered module whose IsEnabled
predicate rejects the configured enabled set fails with the TypeError naming
the module; an enabled on-require module (one with a creator) produces a
module object, which is never the undefined fallback. -/
theorem require_reports_missing_and_disabled
    (aliases : List (String × String)) (mods : List JSModule)
    (enabled : List String) (n : String) (m : JSModule) :
    (findModule mods (resolveAlias aliases n) = none →
      requireCall aliases mods enabled n =
        .panicMsg (cannotFindMsg (resolveAlias aliases n)))
    ∧ (findModule mods (resolveAlias aliases n) = some m →
        m.isEnabled enabled = false →
        requireCall aliases mods enabled n =
          .panicMsg (notEnabledMsg (resolveAlias aliases n)))
    ∧ (findModule mods (resolveAlias aliases n) = some m →
        m.isEnabled enabled = true → m.hasCreator = true →
        requireCall aliases mods enabled n = .moduleObject m.name
          ∧ RequireResult.moduleObject m.name ≠ .undef) := by
  refine ⟨?_, ?_, ?_⟩
  · intro hf
    simp [requireCall, hf]
  · intro hf he
    simp [requireCall, hf, he]
  · intro hf he hc
    exact ⟨by simp [requireCall, hf, he, hc], by simp⟩

/-- C9 witness: with only the crypto module registered, an unknown name
(after the http/server alias resolves to http) fails naming http, a
disabled crypto fails naming crypto, and an enabled crypto yields the module
object. -/
theorem require_reports_missing_and_disabled_witness :
    requireCall [("http/server", "http")] [cryptoMod] [] "http/server" =
      .panicMsg (cannotFindMsg "http")
    ∧ requireCall [] [cryptoMod] [] "crypto" = .panicMsg (notEnabledMsg "crypto")
    ∧ requireCall [] [cryptoMod] ["crypto"] "crypto" = .moduleObject "crypto" :=
  ⟨(require_reports_missing_and_disabled [("http/server", "http")] [cryptoMod]
      [] "http/server" cryptoMod).1 (by rfl),
   (require_reports_missing_and_disabled [] [cryptoMod] [] "crypto" cryptoMod).2.1
     (by rfl) (by rfl),
   ((require_reports_missing_and_disabled [] [cryptoMod] ["crypto"] "crypto"
      cryptoMod).2.2 (by rfl) (by rfl) (by rfl)).1⟩

/-- C10: RemovePending decrements the pending counter only when it is
positive, so the counter never underflows: at zero it stays zero, a single
call never increases it, and any sequence of AddPending and RemovePending
calls leaves it bounded by the starting value plus the number of AddPending
calls; every RemovePending call signals the condition variable, also when
the counter was already zero. -/
theorem removePending_never_underflows (e : EventLoop) (l : List PendingOp) :
    (e.pending = 0 → (e.removePending).pending = 0)
    ∧ (e.removePending).signals = e.signals + 1
    ∧ (e.removePending).pending ≤ e.pending
    ∧ (e.addPending).pending = e.pending + 1
    ∧ (runPendingOps l e).pending ≤ e.pending + countAdds l := by
  refine ⟨?_, rfl, ?_, rfl, ?_⟩
  · intro hz
    simp [EventLoop.removePending, hz]
  · simp only [EventLoop.removePending]
    split <;> omega
  · induction l generalizing e with
    | nil => simp [runPendingOps, countAdds]
    | cons op rest ih =>
        cases op with
        | add =>
            have := ih e.addPending
            simp only [runPendingOps, countAdds, EventLoop.addPending] at this ⊢
            omega
        | remove =>
            have := ih e.removePending
            have hle : (e.removePending).pending ≤ e.pending := by
              simp only [EventLoop.removePending]
              split <;> omega
            simp only [runPendingOps, countAdds] at this ⊢
            omega

/-- C10 witness: removing below zero keeps the counter at zero and still
signals; a concrete unbalanced sequence stays bounded by its add count. -/
theorem removePending_never_underflows_witness :
    (newEventLoop.removePending).pending = 0
    ∧ (newEventLoop.removePending).signals = newEventLoop.signals + 1
    ∧ (runPendingOps [.remove, .remove, .add, .remove, .remove, .add] newEventLoop).pending ≤
        newEventLoop.pending + countAdds [.remove, .remove, .add, .remove, .remove, .add] :=
  ⟨(removePending_never_underflows newEventLoop []).1 (by decide),
   (removePending_never_underflows newEventLoop []).2.1,
   (removePending_never_underflows newEventLoop
      [.remove, .remove, .add, .remove, .remove, .add]).2.2.2.2⟩
